import Mathlib

/-!
Verification of the PR-aggregation pipeline of victorwads/GitHubRepoStats.

The TypeScript sources are shallowly embedded:
* JavaScript numbers occurring in the statistics pipeline are integer-valued
  and are modelled as `Int`; the derived averages (float divisions of integer
  totals) are modelled as exact rationals `Rat`.
* Timestamps are milliseconds of local civil time with uniform 86400000 ms
  days (daylight-saving shifts are not modelled); the epoch lies at a local
  midnight.
* `localeCompare` and string lowercasing are modelled code-point-wise
  (`charListLt`, `strToLower`); for the ASCII logins, paths and extensions the
  program handles this agrees with the JS behaviour.
* The file system behind the cache is modelled by the outcome the code can
  observe at each cache key: entry absent (ENOENT), entry present but not
  valid JSON (`JSON.parse` throws), or a parsed JSON value.
* The paginated listing endpoint is modelled as the list of pages it yields.
-/

namespace GitHubRepoStats

/-- Milliseconds per civil day. -/
def msPerDay : Int := 86400000

/-- A JavaScript `number` that may be `NaN`; finite values are exact
rationals. -/
inductive JsNumber where
  | nan
  | num (val : Rat)
deriving DecidableEq

/-- Model of `Math.trunc`: rounds toward zero. -/
def jsTrunc (q : Rat) : Int := if q < 0 then -(⌊-q⌋) else ⌊q⌋

/-- Code-point lowercasing; models `String.prototype.toLowerCase` on the
ASCII data the program handles. -/
def strToLower (s : String) : String := ⟨s.data.map Char.toLower⟩

/-- Whitespace trimming; models `String.prototype.trim`. -/
def strTrim (s : String) : String :=
  ⟨((s.data.dropWhile Char.isWhitespace).reverse.dropWhile Char.isWhitespace).reverse⟩

/-- Code-point lexicographic comparison on character lists. -/
def charListLt : List Char → List Char → Bool
  | [], [] => false
  | [], _ :: _ => true
  | _ :: _, [] => false
  | a :: as, b :: bs => if a < b then true else if b < a then false else charListLt as bs

/-- Lexicographic strict order on strings; models the order `localeCompare`
induces on the ASCII identifiers the program compares. -/
def strLt (a b : String) : Bool := charListLt a.data b.data

/-- Sign-valued model of `a.localeCompare(b)`. -/
def strcmp (a b : String) : Int :=
  if strLt a b then -1 else if strLt b a then 1 else 0

/-- Characters of the last path segment (after the last `/`); the basename
step of Node `path.extname` for POSIX paths. -/
def lastSegment (l : List Char) : List Char :=
  l.foldl (fun acc ch => if ch = '/' then [] else acc ++ [ch]) []

/-- The suffix of `l` that starts at its last dot, if any. -/
def lastDotSuffix : List Char → Option (List Char)
  | [] => none
  | c :: rest =>
    match lastDotSuffix rest with
    | some s => some s
    | none => if c = '.' then some (c :: rest) else none

/-- Model of Node `path.extname` (POSIX): the part of the last path segment
from its last dot on; a dot that is the first character of the segment does
not start an extension, and the segment `..` has none. -/
def extname (p : String) : String :=
  match lastSegment p.data with
  | [] => ""
  | c0 :: rest =>
    if c0 :: rest = ['.', '.'] then ""
    else
      match lastDotSuffix rest with
      | some s => ⟨s⟩
      | none => ""

/-- A parsed JSON value, recorded only as far as the cache code inspects one:
its JavaScript truthiness.  `arr` and `obj` stand for any array/object. -/
inductive JsVal where
  | null
  | bool (b : Bool)
  | num (n : Int)
  | str (s : String)
  | arr
  | obj
deriving DecidableEq

/-- JavaScript truthiness of a parsed JSON value. -/
def jsTruthy : JsVal → Bool
  | .null => false
  | .bool b => b
  | .num n => n != 0
  | .str s => s != ""
  | .arr => true
  | .obj => true

/-! ## Data model (src/src/type.ts, src/unnamed/part_004) -/

structure PullRequestSummary where
  number : Int
  title : String
  url : String
  owner : String
  mergedAt : Int
deriving DecidableEq

/-- The fields of a `pulls.get` response the aggregation reads. -/
structure PullRequestData where
  additions : Option Int
  deletions : Option Int
  changed_files : Option Int
  commits : Option Int
deriving DecidableEq

/-- One entry of a `pulls.listFiles` response. -/
structure PullRequestFile where
  filename : String
  additions : Option Int
  deletions : Option Int
  changes : Option Int
deriving DecidableEq

structure PullRequestWithDetails where
  summary : PullRequestSummary
  data : PullRequestData
  files : List PullRequestFile
deriving DecidableEq

/-- One element of a `pulls.list` page, with the fields
`listMergedPullRequestSummaries` reads plus the `updated_at` key the listing
endpoint sorts by (descending).  `merged_at` carries the parsed merge
timestamp; `none` is JSON `null`. -/
structure RawPull where
  number : Int
  title : Option String
  html_url : Option String
  user_login : Option String
  merged_at : Option Int
  updated_at : Int
deriving DecidableEq

/-- Options record `FetchPullRequestsOptions` of the file-aware variant
(src/unnamed/part_004), merged with the `ignoredFilePatterns` extension of
`GenerateReportOptions` (src/src/report.ts).  `until` is a Lean keyword, so
the field is called `until_`. -/
structure FetchPullRequestsOptions where
  owner : String
  repo : String
  extensions : List String
  since : Option Int := none
  until_ : Option Int := none
  limit : Option Int := none
  concurrentRequests : Option JsNumber := none
  ignoredFilePatterns : Option (List String) := none
deriving DecidableEq

/-! ## Ignore/extension filter (src/src/report.ts, lines 459-478) -/

/-- Source `buildIgnoreMatcher` (src/src/report.ts:459).  `matchGlob fp pat` models
`minimatch(fp, pat, { dot: true })`. -/
def buildIgnoreMatcher (matchGlob : String → String → Bool)
    (patterns : List String) : String → Bool :=
  let sanitized := patterns.filter (fun pattern => 0 < (strTrim pattern).length)
  if sanitized.length = 0 then fun _ => false
  else fun filePath => sanitized.any (fun pattern => matchGlob filePath pattern)

/-- Source `isAllowedExtension` (src/src/report.ts:468).  The JS `Set` is modelled
by deduplication; size and membership agree. -/
def isAllowedExtension (o : FetchPullRequestsOptions) (filePath : String) : Bool :=
  let set := (o.extensions.map strToLower).dedup
  if set.length = 0 then true
  else set.contains (strToLower (extname filePath))

/-- The combined acceptance test both aggregations apply to a changed file:
not ignored, and with an allowed extension. -/
def fileAccepted (o : FetchPullRequestsOptions) (ignore : String → Bool)
    (file : PullRequestFile) : Bool :=
  !(ignore file.filename) && isAllowedExtension o file.filename

/-! ## Aggregator (src/src/report.ts, file-aware variant) -/

structure PRFileChangeInfo where
  path : String
  linesAdded : Int
  linesDeleted : Int
  totalChanges : Int
deriving DecidableEq

structure PRTotals where
  linesAdded : Int
  linesDeleted : Int
  filesChanged : Int
  commitsCount : Int
deriving DecidableEq

structure UserTotals where
  linesAdded : Int
  linesDeleted : Int
  filesChanged : Int
  commitsCount : Int
  prCount : Int
deriving DecidableEq

structure UserAverages where
  linesAdded : Rat
  linesDeleted : Rat
  filesChanged : Rat
  commitsCount : Rat
deriving DecidableEq

structure PRReportInfo where
  prNumber : Int
  title : String
  url : String
  owner : String
  mergedAt : Int
  totals : PRTotals
  files : List PRFileChangeInfo
deriving DecidableEq

structure ReportUserInfo where
  owner : String
  totals : UserTotals
  averages : UserAverages
  prs : List PRReportInfo
deriving DecidableEq

structure ReportFileInfo where
  path : String
  linesAdded : Int
  linesDeleted : Int
  totalChanges : Int
  prCount : Int
deriving DecidableEq

/-- Source `safeDivide` (src/src/report.ts:414): division by zero yields 0. -/
def safeDivide (numerator denominator : Int) : Rat :=
  if denominator = 0 then 0 else (numerator : Rat) / (denominator : Rat)

/-- Source `computeAveragesFromTotals` (src/src/report.ts:405). -/
def computeAveragesFromTotals (t : UserTotals) : UserAverages :=
  { linesAdded := safeDivide t.linesAdded t.prCount
    linesDeleted := safeDivide t.linesDeleted t.prCount
    filesChanged := safeDivide t.filesChanged t.prCount
    commitsCount := safeDivide t.commitsCount t.prCount }

/-- Source `resolveTotalChanges` (src/src/report.ts:452). -/
def resolveTotalChanges (changes : Option Int) (linesAdded linesDeleted : Int) : Int :=
  match changes with
  | some c => c
  | none => linesAdded + linesDeleted

/-- Source `buildPrFiles` (src/src/report.ts:421): the per-PR loop that skips
ignored files and disallowed extensions and records the rest. -/
def buildPrFiles (o : FetchPullRequestsOptions) (files : List PullRequestFile)
    (ignore : String → Bool) : List PRFileChangeInfo :=
  match files with
  | [] => []
  | file :: rest =>
    if ignore file.filename then buildPrFiles o rest ignore
    else if !(isAllowedExtension o file.filename) then buildPrFiles o rest ignore
    else
      let linesAdded := file.additions.getD 0
      let linesDeleted := file.deletions.getD 0
      let totalChanges := resolveTotalChanges file.changes linesAdded linesDeleted
      { path := file.filename, linesAdded := linesAdded, linesDeleted := linesDeleted,
        totalChanges := totalChanges } :: buildPrFiles o rest ignore

/-- Source `sumFiles` (src/src/report.ts:448). -/
def sumFiles (files : List PRFileChangeInfo) (selector : PRFileChangeInfo → Int) : Int :=
  files.foldl (fun accumulator file => accumulator + selector file) 0

/-- The record a change-record of `buildPrFiles` holds for one accepted
file. -/
def fileChangeOf (file : PullRequestFile) : PRFileChangeInfo :=
  let linesAdded := file.additions.getD 0
  let linesDeleted := file.deletions.getD 0
  { path := file.filename, linesAdded := linesAdded, linesDeleted := linesDeleted,
    totalChanges := resolveTotalChanges file.changes linesAdded linesDeleted }

/-- The `prInfo` value the `buildUserReports` loop body
(src/src/report.ts:244-264) computes for one PR: per-file sums over the
filtered files, filtered file count, unfiltered commit count. -/
def prReportInfo (o : FetchPullRequestsOptions) (ignore : String → Bool)
    (p : PullRequestWithDetails) : PRReportInfo :=
  let prFiles := buildPrFiles o p.files ignore
  let linesAdded := sumFiles prFiles (fun file => file.linesAdded)
  let linesDeleted := sumFiles prFiles (fun file => file.linesDeleted)
  let filesChanged : Int := prFiles.length
  let commitsCount := p.data.commits.getD 0
  { prNumber := p.summary.number, title := p.summary.title, url := p.summary.url,
    owner := p.summary.owner, mergedAt := p.summary.mergedAt,
    totals := { linesAdded := linesAdded, linesDeleted := linesDeleted,
                filesChanged := filesChanged, commitsCount := commitsCount },
    files := prFiles }

/-- New per-owner aggregate for a first PR (src/src/report.ts:268-288). -/
def newUserInfo (ownerLogin : String) (pr : PRReportInfo) : ReportUserInfo :=
  let t : UserTotals :=
    { linesAdded := pr.totals.linesAdded, linesDeleted := pr.totals.linesDeleted,
      filesChanged := pr.totals.filesChanged, commitsCount := pr.totals.commitsCount,
      prCount := 1 }
  { owner := ownerLogin, totals := t, averages := computeAveragesFromTotals t,
    prs := [pr] }

/-- In-place update of an existing per-owner aggregate
(src/src/report.ts:290-296). -/
def updatedUserInfo (u : ReportUserInfo) (pr : PRReportInfo) : ReportUserInfo :=
  let t : UserTotals :=
    { linesAdded := u.totals.linesAdded + pr.totals.linesAdded,
      linesDeleted := u.totals.linesDeleted + pr.totals.linesDeleted,
      filesChanged := u.totals.filesChanged + pr.totals.filesChanged,
      commitsCount := u.totals.commitsCount + pr.totals.commitsCount,
      prCount := u.totals.prCount + 1 }
  { owner := u.owner, totals := t, averages := computeAveragesFromTotals t,
    prs := u.prs ++ [pr] }

/-- One iteration of the `buildUserReports` loop over a `Map` that keeps
insertion order (modelled as a list with unique owner keys). -/
def foldUserStep (o : FetchPullRequestsOptions) (ignore : String → Bool)
    (acc : List ReportUserInfo) (p : PullRequestWithDetails) : List ReportUserInfo :=
  let pr := prReportInfo o ignore p
  if acc.any (fun u => u.owner = p.summary.owner) then
    acc.map (fun u => if u.owner = p.summary.owner then updatedUserInfo u pr else u)
  else acc ++ [newUserInfo p.summary.owner pr]

/-- The sort comparator of `buildUserReports` (src/src/report.ts:299-312):
descending total changes, then descending PR count, then `localeCompare` on
the owner login. -/
def userCmp (a b : ReportUserInfo) : Int :=
  let totalChangesA := a.totals.linesAdded + a.totals.linesDeleted
  let totalChangesB := b.totals.linesAdded + b.totals.linesDeleted
  if totalChangesB ≠ totalChangesA then totalChangesB - totalChangesA
  else if b.totals.prCount ≠ a.totals.prCount then b.totals.prCount - a.totals.prCount
  else strcmp a.owner b.owner

/-- Row `a` may precede row `b` under the comparator. -/
def userLe (a b : ReportUserInfo) : Prop := userCmp a b ≤ 0

instance : DecidableRel userLe := fun a b => by unfold userLe; infer_instance

/-- Source `buildUserReports` (src/src/report.ts:237-313): fold all PRs into the
per-owner map, then sort its values with the comparator. -/
def buildUserReports (o : FetchPullRequestsOptions)
    (pulls : List PullRequestWithDetails) (ignore : String → Bool) : List ReportUserInfo :=
  List.insertionSort userLe (pulls.foldl (foldUserStep o ignore) [])

/-- The update-or-append a counted file performs on the per-file map
(src/src/report.ts:336-352). -/
def fileUpdate (acc : List ReportFileInfo) (file : PullRequestFile) : List ReportFileInfo :=
  let linesAdded := file.additions.getD 0
  let linesDeleted := file.deletions.getD 0
  let totalChanges := resolveTotalChanges file.changes linesAdded linesDeleted
  if acc.any (fun e => e.path = file.filename) then
    acc.map (fun e =>
      if e.path = file.filename then
        { path := e.path, linesAdded := e.linesAdded + linesAdded,
          linesDeleted := e.linesDeleted + linesDeleted,
          totalChanges := e.totalChanges + totalChanges, prCount := e.prCount + 1 }
      else e)
  else
    acc ++ [{ path := file.filename, linesAdded := linesAdded,
              linesDeleted := linesDeleted, totalChanges := totalChanges, prCount := 1 }]

/-- One iteration of the inner `buildFileReport` loop
(src/src/report.ts:322-353): the same two gates, then update-or-append. -/
def fileStep (o : FetchPullRequestsOptions) (ignore : String → Bool)
    (acc : List ReportFileInfo) (file : PullRequestFile) : List ReportFileInfo :=
  if ignore file.filename then acc
  else if !(isAllowedExtension o file.filename) then acc
  else fileUpdate acc file

/-- The sort comparator of `buildFileReport` (src/src/report.ts:355-360). -/
def fileCmp (a b : ReportFileInfo) : Int :=
  if b.totalChanges ≠ a.totalChanges then b.totalChanges - a.totalChanges
  else strcmp a.path b.path

def fileLe (a b : ReportFileInfo) : Prop := fileCmp a b ≤ 0

instance : DecidableRel fileLe := fun a b => by unfold fileLe; infer_instance

/-- Source `buildFileReport` (src/src/report.ts:315-361). -/
def buildFileReport (o : FetchPullRequestsOptions)
    (pulls : List PullRequestWithDetails) (ignore : String → Bool) : List ReportFileInfo :=
  List.insertionSort fileLe
    (pulls.foldl (fun acc p => p.files.foldl (fileStep o ignore) acc) [])

/-! ## Fetch orchestrator (src/src/github.ts, src/unnamed/part_004) -/

/-- Source `sanitizeConcurrency` (src/src/github.ts:166, src/unnamed/part_004:284).
`!concurrency` is true exactly for `undefined`, `0` and `NaN`; `NaN` is also
caught by `Number.isNaN`. -/
def sanitizeConcurrency (concurrency : Option JsNumber) : Int :=
  match concurrency with
  | none => 6
  | some .nan => 6
  | some (.num x) => if x = 0 then 6 else max 1 (min 25 (jsTrunc x))

/-- The concurrency cap `fetchMergedPullRequests` passes to `pLimit`: the
destructuring default 6 for an absent option, then `sanitizeConcurrency`. -/
def effectiveConcurrency (o : FetchPullRequestsOptions) : Int :=
  sanitizeConcurrency (some (o.concurrentRequests.getD (.num 6)))

/-- Source `targetAmount` (src/unnamed/part_004:79, src/src/github.ts:70):
`typeof limit === "number" && limit > 0 ? limit : undefined`. -/
def targetAmount (limit : Option Int) : Option Int :=
  match limit with
  | some l => if 0 < l then some l else none
  | none => none

/-- The early-stop test `if (targetAmount && summaries.length >= targetAmount)`:
`targetAmount` must be truthy (a number other than 0) and reached. -/
def hitTarget (target : Option Int) (count : Nat) : Bool :=
  match target with
  | some t => decide (t ≠ 0) && decide (t ≤ (count : Int))
  | none => false

/-- The per-pull test and summary construction of the listing loops
(src/unnamed/part_004:105-126, src/src/github.ts:82-103): skip pulls without
a merge timestamp or merged outside the window, else build the summary. -/
def qualify (o : FetchPullRequestsOptions) (p : RawPull) : Option PullRequestSummary :=
  match p.merged_at with
  | none => none
  | some mergedAt =>
    if (match o.since with | some s => decide (mergedAt < s) | none => false) then none
    else if (match o.until_ with | some u => decide (u < mergedAt) | none => false) then none
    else some
      { number := p.number
        title := p.title.getD ("PR #" ++ toString p.number)
        url := p.html_url.getD
          ("https://github.com/" ++ o.owner ++ "/" ++ o.repo ++ "/pull/" ++ toString p.number)
        owner := p.user_login.getD "unknown"
        mergedAt := mergedAt }

/-- The inner listing loop over one page: push each qualifying pull, breaking
out (second component `true`) once the target amount is reached. -/
def collectLoop (q : RawPull → Option PullRequestSummary) (target : Option Int) :
    List RawPull → List PullRequestSummary → List PullRequestSummary × Bool
  | [], acc => (acc, false)
  | p :: rest, acc =>
    match q p with
    | none => collectLoop q target rest acc
    | some s =>
      let acc2 := acc ++ [s]
      if hitTarget target acc2.length then (acc2, true)
      else collectLoop q target rest acc2

/-- The outer listing loop over the iterator pages; `break outer` skips the
remaining pages. -/
def collectPages (q : RawPull → Option PullRequestSummary) (target : Option Int) :
    List (List RawPull) → List PullRequestSummary → List PullRequestSummary
  | [], acc => acc
  | page :: rest, acc =>
    let r := collectLoop q target page acc
    if r.2 then r.1 else collectPages q target rest r.1

/-- Source `listMergedPullRequestSummaries` of src/src/github.ts:63-112, which is
also the default (no range cache) path of the file-aware variant
(src/unnamed/part_004:144-184). -/
def listMergedSummariesNoCache (o : FetchPullRequestsOptions)
    (pages : List (List RawPull)) : List PullRequestSummary :=
  collectPages (qualify o) (targetAmount o.limit) pages []

/-- Source `isUntilEligibleForCache` (src/unnamed/part_004:187-192): `until` must be
at or before yesterday end-of-day, `new Date(y, m, d-1, 23, 59, 59, 999)`,
which in the uniform-day model is the last millisecond before today's local
midnight `(now / msPerDay) * msPerDay`. -/
def isUntilEligibleForCache (now untilTs : Int) : Bool :=
  decide (untilTs ≤ now / msPerDay * msPerDay - 1)

/-- Parsed JSON payload of a range-cache entry, as far as the listing code
inspects it: an array (cast to summaries), some other truthy value, or a
falsy value (`null`, `0`, `false`, `""`). -/
inductive RangeVal where
  | arr (items : List PullRequestSummary)
  | truthyNonArray
  | falsy
deriving DecidableEq

/-- Outcome of `readCache` (src/unnamed/part_004:266-276) on the range-cache
file: absent (ENOENT, returned as `undefined`), present but unparsable
(`JSON.parse` throws and `readCache` rethrows), or a parsed value. -/
inductive RangeEntry where
  | absent
  | unparsable
  | value (v : RangeVal)
deriving DecidableEq

inductive CacheError where
  | parseFailure
deriving DecidableEq

/-- What the listing returns: a summary list, or — when a truthy non-array
cache payload is returned verbatim with no limit set — an ill-typed value. -/
inductive ListingResult where
  | summaries (items : List PullRequestSummary)
  | illTyped
deriving DecidableEq

/-- Which range-cache keys a listing call read and wrote. -/
structure RangeTrace where
  rangeRead : Option (Int × Int)
  rangeWrite : Option (Int × Int)
deriving DecidableEq

/-- Source `listMergedPullRequestSummaries` of src/unnamed/part_004:72-185.
`now` is the wall clock; `cache` maps the canonicalized (since, until) key
(the file name rendering is abstracted away) to its `readCache` outcome.

The cache branch runs only when `since` and `until` are both set and `until`
is cache-eligible.  There, a `readCache` parse failure escapes: the
`try { ... } catch` around the cast covers only the cast and the `slice`
call, so `.unparsable` yields an error.  A falsy parsed value fails the
`if (cached)` test; a truthy non-array with a limit set makes
`parsed.slice` throw a TypeError that the `catch` swallows — both fall
through to a fresh fetch followed by a best-effort cache write. -/
def listMergedSummariesPart004 (now : Int) (o : FetchPullRequestsOptions)
    (pages : List (List RawPull)) (cache : Int × Int → RangeEntry) :
    RangeTrace × Except CacheError ListingResult :=
  let target := targetAmount o.limit
  match o.since, o.until_ with
  | some s, some u =>
    if isUntilEligibleForCache now u then
      let key := (s, u)
      match cache key with
      | .unparsable =>
        ({ rangeRead := some key, rangeWrite := none }, .error .parseFailure)
      | .absent =>
        let summaries := collectPages (qualify o) target pages []
        ({ rangeRead := some key, rangeWrite := some key }, .ok (.summaries summaries))
      | .value v =>
        match v, target with
        | .falsy, _ =>
          let summaries := collectPages (qualify o) target pages []
          ({ rangeRead := some key, rangeWrite := some key }, .ok (.summaries summaries))
        | .arr items, some t =>
          ({ rangeRead := some key, rangeWrite := none },
           .ok (.summaries (items.take t.toNat)))
        | .arr items, none =>
          ({ rangeRead := some key, rangeWrite := none }, .ok (.summaries items))
        | .truthyNonArray, some _ =>
          let summaries := collectPages (qualify o) target pages []
          ({ rangeRead := some key, rangeWrite := some key }, .ok (.summaries summaries))
        | .truthyNonArray, none =>
          ({ rangeRead := some key, rangeWrite := none }, .ok .illTyped)
    else
      ({ rangeRead := none, rangeWrite := none },
       .ok (.summaries (listMergedSummariesNoCache o pages)))
  | _, _ =>
    ({ rangeRead := none, rangeWrite := none },
     .ok (.summaries (listMergedSummariesNoCache o pages)))

/-- Outcome of `readCache` on a per-PR detail or files cache file. -/
inductive DetailCacheEntry where
  | absent
  | unparsable
  | value (v : JsVal)
deriving DecidableEq

/-- Source `getPullRequestWithCache` (src/unnamed/part_004:209-230): a parse failure
propagates; an absent entry or a falsy parsed payload triggers the network
fetch followed by a cache write (second component `true`); a truthy payload
is returned verbatim with no network call. -/
def getPullRequestWithCache (entry : DetailCacheEntry) (network : JsVal) :
    Except CacheError (JsVal × Bool) :=
  match entry with
  | .absent => .ok (network, true)
  | .unparsable => .error .parseFailure
  | .value v => if jsTruthy v then .ok (v, false) else .ok (network, true)

/-- Source `getPullRequestFilesWithCache` (src/unnamed/part_004:237-259): same
cache discipline as the detail fetch. -/
def getPullRequestFilesWithCache (entry : DetailCacheEntry) (network : JsVal) :
    Except CacheError (JsVal × Bool) :=
  match entry with
  | .absent => .ok (network, true)
  | .unparsable => .error .parseFailure
  | .value v => if jsTruthy v then .ok (v, false) else .ok (network, true)

/-! ## Derived orders, the day model, and concrete scenario inputs -/

/-- Adjacent rows in the claimed order: descending total changes, tie-break
descending PR count, final tie-break strictly ascending owner login. -/
def userStrictOrdered (a b : ReportUserInfo) : Prop :=
  b.totals.linesAdded + b.totals.linesDeleted
      < a.totals.linesAdded + a.totals.linesDeleted
  ∨ (a.totals.linesAdded + a.totals.linesDeleted
        = b.totals.linesAdded + b.totals.linesDeleted
     ∧ (b.totals.prCount < a.totals.prCount
        ∨ (a.totals.prCount = b.totals.prCount ∧ strLt a.owner b.owner = true)))

/-- The per-owner map never holds two entries with the same owner login. -/
def ownersDistinct (l : List ReportUserInfo) : Prop :=
  l.Pairwise (fun u v => u.owner ≠ v.owner)

/-- Moment `t` lies on civil day `k` in the uniform-day local-time model. -/
def onDay (k t : Int) : Prop := k * msPerDay ≤ t ∧ t < (k + 1) * msPerDay

instance (k t : Int) : Decidable (onDay k t) := by
  unfold onDay
  infer_instance

/-- Options for the concrete owner-ordering scenario: no extension gate, no
ignore patterns. -/
def oC1 : FetchPullRequestsOptions := { owner := "o", repo := "r", extensions := [] }

/-- A merged PR by `login` whose single counted file adds `adds` lines. -/
def mkPullC1 (login : String) (n : Int) (adds : Int) : PullRequestWithDetails :=
  { summary := { number := n, title := "t", url := "u", owner := login, mergedAt := 0 }
    data := { additions := none, deletions := none, changed_files := none, commits := none }
    files := [{ filename := "f.ts", additions := some adds, deletions := some 0,
                changes := none }] }

/-- Owners A (500 changes, 3 PRs), B (500 changes, 5 PRs), C (300 changes,
1 PR), folded in mixed order. -/
def pullsC1 : List PullRequestWithDetails :=
  [mkPullC1 "C" 1 300, mkPullC1 "A" 2 200, mkPullC1 "B" 3 100, mkPullC1 "A" 4 150,
   mkPullC1 "B" 5 100, mkPullC1 "B" 6 100, mkPullC1 "A" 7 150, mkPullC1 "B" 8 100,
   mkPullC1 "B" 9 100]

/-- A merged raw pull for the concrete listing scenarios. -/
def rawC3 (n : Int) (upd : Int) : RawPull :=
  { number := n, title := some "t", html_url := some "u", user_login := some "alice",
    merged_at := some 100, updated_at := upd }

def oC3 : FetchPullRequestsOptions :=
  { owner := "o", repo := "r", extensions := [], limit := some 1 }

/-- Five merged PRs, newest-first, split into pages of mixed sizes. -/
def pagesC3 : List (List RawPull) :=
  [[rawC3 1 50, rawC3 2 40], [rawC3 3 30, rawC3 4 20], [rawC3 5 10]]

/-- The same stream under a different pagination. -/
def pagesC3b : List (List RawPull) :=
  [[rawC3 1 50], [rawC3 2 40, rawC3 3 30, rawC3 4 20, rawC3 5 10]]

def oC9 : FetchPullRequestsOptions :=
  { owner := "o", repo := "r", extensions := [], limit := some 0 }

def oC5 : FetchPullRequestsOptions :=
  { owner := "o", repo := "r", extensions := [], since := some 0,
    until_ := some (10 * 86400000 + 7) }

/-- An eligible window whose range-cache entry holds unparsable JSON: the
wall clock is on day 10, the window is day 0 through the start of day 8. -/
def oC2 : FetchPullRequestsOptions :=
  { owner := "o", repo := "r", extensions := [], since := some 0,
    until_ := some (8 * 86400000) }

def cacheC2 : Int × Int → RangeEntry := fun key =>
  if key = (0, 8 * 86400000) then .unparsable else .absent

def oC8 : FetchPullRequestsOptions := { owner := "o", repo := "r", extensions := [] }

/-- A concrete glob matcher standing in for `minimatch`: exact match. -/
def mgC6 : String → String → Bool := fun filePath pattern => filePath == pattern

def oC6 : FetchPullRequestsOptions := { owner := "o", repo := "r", extensions := [".ts"] }

def fileC6 : PullRequestFile :=
  { filename := "src/a.TS", additions := some 1, deletions := some 0, changes := none }

/-! ## Lexicographic string order: basic facts -/

theorem charListLt_asymm (x : List Char) :
    ∀ y, charListLt x y = true → charListLt y x = false := by
  induction x with
  | nil =>
    intro y h
    cases y <;> simp [charListLt] at h ⊢
  | cons a as ih =>
    intro y h
    cases y with
    | nil => simp [charListLt] at h
    | cons b bs =>
      simp only [charListLt] at h ⊢
      by_cases hab : a < b
      · have hba : ¬ b < a := fun hc => absurd (lt_trans hab hc) (lt_irrefl a)
        simp [hab, hba]
      · by_cases hba : b < a
        · simp [hab, hba] at h
        · have htail := ih bs (by simpa [hab, hba] using h)
          simp [hab, hba, htail]

theorem charListLt_trans (x : List Char) :
    ∀ y z, charListLt x y = true → charListLt y z = true → charListLt x z = true := by
  induction x with
  | nil =>
    intro y z hxy hyz
    cases y with
    | nil => simp [charListLt] at hxy
    | cons b bs =>
      cases z with
      | nil => simp [charListLt] at hyz
      | cons c cs => simp [charListLt]
  | cons a as ih =>
    intro y z hxy hyz
    cases y with
    | nil => simp [charListLt] at hxy
    | cons b bs =>
      cases z with
      | nil => simp [charListLt] at hyz
      | cons c cs =>
        simp only [charListLt] at hxy hyz ⊢
        by_cases hab : a < b
        · by_cases hbc : b < c
          · simp [lt_trans hab hbc]
          · by_cases hcb : c < b
            · simp [hbc, hcb] at hyz
            · have hbceq : b = c := le_antisymm (not_lt.mp hcb) (not_lt.mp hbc)
              subst hbceq
              simp [hab]
        · by_cases hba : b < a
          · simp [hab, hba] at hxy
          · have habeq : a = b := le_antisymm (not_lt.mp hba) (not_lt.mp hab)
            subst habeq
            by_cases hac : a < c
            · simp [hac]
            · by_cases hca : c < a
              · simp [hac, hca] at hyz
              · have haceq : a = c := le_antisymm (not_lt.mp hca) (not_lt.mp hac)
                subst haceq
                have h1 := by simpa [hac] using hxy
                have h2 := by simpa [hac] using hyz
                simp [hac, ih bs cs h1 h2]

theorem charListLt_eq_of_not_lt (x : List Char) :
    ∀ y, charListLt x y = false → charListLt y x = false → x = y := by
  induction x with
  | nil =>
    intro y h1 _
    cases y with
    | nil => rfl
    | cons b bs => simp [charListLt] at h1
  | cons a as ih =>
    intro y h1 h2
    cases y with
    | nil => simp [charListLt] at h2
    | cons b bs =>
      simp only [charListLt] at h1 h2
      by_cases hab : a < b
      · simp [hab] at h1
      · by_cases hba : b < a
        · simp [hab, hba] at h2
        · have habeq : a = b := le_antisymm (not_lt.mp hba) (not_lt.mp hab)
          subst habeq
          have t1 := by simpa [hab] using h1
          have t2 := by simpa [hab] using h2
          rw [ih bs t1 t2]

theorem strLt_asymm {a b : String} (h : strLt a b = true) : strLt b a = false :=
  charListLt_asymm a.data b.data h

theorem strLt_trans {a b c : String} (h1 : strLt a b = true) (h2 : strLt b c = true) :
    strLt a c = true :=
  charListLt_trans a.data b.data c.data h1 h2

theorem strLt_eq_of_not_lt {a b : String} (h1 : strLt a b = false)
    (h2 : strLt b a = false) : a = b := by
  cases a with
  | mk da =>
    cases b with
    | mk db => exact congrArg String.mk (charListLt_eq_of_not_lt da db h1 h2)

theorem strcmp_nonpos_iff (a b : String) : strcmp a b ≤ 0 ↔ strLt b a = false := by
  unfold strcmp
  cases h1 : strLt a b
  · cases h2 : strLt b a <;> simp [h1, h2]
  · simp [h1, strLt_asymm h1]

/-! ## Filter and per-PR aggregation lemmas -/

theorem buildPrFiles_eq (o : FetchPullRequestsOptions) (ignore : String → Bool)
    (files : List PullRequestFile) :
    buildPrFiles o files ignore = (files.filter (fileAccepted o ignore)).map fileChangeOf := by
  induction files with
  | nil => rfl
  | cons f rest ih =>
    cases hig : ignore f.filename <;> cases hal : isAllowedExtension o f.filename <;>
      simp [buildPrFiles, hig, hal, fileAccepted, List.filter_cons, ih, fileChangeOf]

theorem foldl_add_eq_sum (sel : PRFileChangeInfo → Int) (l : List PRFileChangeInfo) :
    ∀ a0 : Int, l.foldl (fun accumulator file => accumulator + sel file) a0
      = a0 + (l.map sel).sum := by
  induction l with
  | nil => intro a0; simp
  | cons x xs ih => intro a0; simp [ih, add_assoc]

theorem sumFiles_eq_sum (l : List PRFileChangeInfo) (sel : PRFileChangeInfo → Int) :
    sumFiles l sel = (l.map sel).sum := by
  simpa [sumFiles] using foldl_add_eq_sum sel l 0

/-- C4: for every PR folded into the file-aware per-owner aggregation, the
lines-added and lines-deleted contributions are the sums of additions and
deletions over the filtered files only, the files-changed contribution is
the filtered file count, and the commits contribution is the PR detail's
commit count taken without filtering; folding a single PR produces exactly
that per-owner aggregate. -/
theorem c4_per_pr_contributions (o : FetchPullRequestsOptions) (ignore : String → Bool)
    (p : PullRequestWithDetails) :
    (prReportInfo o ignore p).totals.linesAdded
        = ((p.files.filter (fileAccepted o ignore)).map (fun f => f.additions.getD 0)).sum
  ∧ (prReportInfo o ignore p).totals.linesDeleted
        = ((p.files.filter (fileAccepted o ignore)).map (fun f => f.deletions.getD 0)).sum
  ∧ (prReportInfo o ignore p).totals.filesChanged
        = ((p.files.filter (fileAccepted o ignore)).length : Int)
  ∧ (prReportInfo o ignore p).totals.commitsCount = p.data.commits.getD 0
  ∧ buildUserReports o [p] ignore = [newUserInfo p.summary.owner (prReportInfo o ignore p)] := by
  refine ⟨?_, ?_, ?_, rfl, ?_⟩
  · show sumFiles (buildPrFiles o p.files ignore) _ = _
    rw [buildPrFiles_eq, sumFiles_eq_sum, List.map_map]
    rfl
  · show sumFiles (buildPrFiles o p.files ignore) _ = _
    rw [buildPrFiles_eq, sumFiles_eq_sum, List.map_map]
    rfl
  · show ((buildPrFiles o p.files ignore).length : Int) = _
    rw [buildPrFiles_eq, List.length_map]
  · simp [buildUserReports, foldUserStep, List.insertionSort]

/-- C6: the filter accepts a path iff both gates pass; the ignore-glob gate
rejects exactly the paths matching a configured pattern and passes
everything when none are configured; the extension gate rejects a path
unless its extension, lowercased and with its leading dot, is among the
lowercased configured extensions, and passes everything when none are
configured. -/
theorem c6_two_gate_filter (matchGlob : String → String → Bool) (patterns : List String)
    (o : FetchPullRequestsOptions) (filePath : String) (file : PullRequestFile)
    (hp : ∀ pattern ∈ patterns, 0 < (strTrim pattern).length) :
    (buildIgnoreMatcher matchGlob patterns filePath = true
        ↔ ∃ pattern ∈ patterns, matchGlob filePath pattern = true)
  ∧ buildIgnoreMatcher matchGlob [] filePath = false
  ∧ (isAllowedExtension o filePath = true
        ↔ (o.extensions = []
            ∨ strToLower (extname filePath) ∈ o.extensions.map strToLower))
  ∧ (o.extensions = [] → isAllowedExtension o filePath = true)
  ∧ (fileAccepted o (buildIgnoreMatcher matchGlob patterns) file = true
        ↔ (buildIgnoreMatcher matchGlob patterns file.filename = false
            ∧ isAllowedExtension o file.filename = true)) := by
  have hsan : patterns.filter (fun pattern => 0 < (strTrim pattern).length) = patterns :=
    List.filter_eq_self.mpr (by intro a ha; simpa using hp a ha)
  refine ⟨?_, ?_, ?_, ?_, ?_⟩
  · unfold buildIgnoreMatcher
    rw [hsan]
    cases patterns with
    | nil => simp
    | cons q qs => simp [List.any_eq_true]
  · simp [buildIgnoreMatcher]
  · by_cases he : o.extensions = []
    · simp [isAllowedExtension, he]
    · have hne : ¬ ((o.extensions.map strToLower).dedup.length = 0) := by
        simp only [List.length_eq_zero, List.dedup_eq_nil, List.map_eq_nil_iff]
        exact he
      have hiff : ∀ (l : List String) (a : String), l.contains a = true ↔ a ∈ l := by
        intro l a
        simp [List.contains]
      simp [isAllowedExtension, hne, hiff, List.mem_dedup, he]
  · intro he; simp [isAllowedExtension, he]
  · simp [fileAccepted, Bool.and_eq_true, Bool.not_eq_true']

theorem c6_two_gate_filter_witness :
    fileAccepted oC6 (buildIgnoreMatcher mgC6 ["skip.ts"]) fileC6 = true
  ∧ buildIgnoreMatcher mgC6 [] "src/a.TS" = false
  ∧ isAllowedExtension oC6 "src/a.TS" = true := by
  obtain ⟨h1, h2, h3, h4, h5⟩ :=
    c6_two_gate_filter mgC6 ["skip.ts"] oC6 "src/a.TS" fileC6 (by decide)
  exact ⟨h5.mpr ⟨by decide, by decide⟩, h2, h3.mpr (Or.inr (by decide))⟩

theorem fileStep_eq (o : FetchPullRequestsOptions) (ignore : String → Bool)
    (acc : List ReportFileInfo) (file : PullRequestFile) :
    fileStep o ignore acc file
      = if fileAccepted o ignore file then fileUpdate acc file else acc := by
  cases hig : ignore file.filename <;> cases hal : isAllowedExtension o file.filename <;>
    simp [fileStep, fileAccepted, hig, hal]

theorem foldl_fileStep (o : FetchPullRequestsOptions) (ignore : String → Bool)
    (l : List PullRequestFile) :
    ∀ acc, l.foldl (fileStep o ignore) acc
      = (l.filter (fileAccepted o ignore)).foldl fileUpdate acc := by
  induction l with
  | nil => intro acc; rfl
  | cons f rest ih =>
    intro acc
    rw [List.foldl_cons, List.filter_cons, fileStep_eq]
    by_cases h : fileAccepted o ignore f = true
    · simp [h, ih]
    · simp [h, ih]

/-- C7: the two aggregations see the same filtered file set per PR — the
per-owner side records exactly the files passing `fileAccepted`, and the
per-file side folds exactly the files passing the same `fileAccepted`. -/
theorem c7_filter_consistency (o : FetchPullRequestsOptions) (ignore : String → Bool) :
    (∀ files : List PullRequestFile,
      (buildPrFiles o files ignore).map (fun f => f.path)
        = (files.filter (fileAccepted o ignore)).map (fun f => f.filename))
  ∧ (∀ pulls : List PullRequestWithDetails,
      buildFileReport o pulls ignore
        = List.insertionSort fileLe
            (pulls.foldl
              (fun acc p => (p.files.filter (fileAccepted o ignore)).foldl fileUpdate acc)
              [])) := by
  constructor
  · intro files
    rw [buildPrFiles_eq, List.map_map]
    rfl
  · intro pulls
    unfold buildFileReport
    have hstep : (fun (acc : List ReportFileInfo) (p : PullRequestWithDetails) =>
        p.files.foldl (fileStep o ignore) acc)
      = (fun acc p => (p.files.filter (fileAccepted o ignore)).foldl fileUpdate acc) := by
      funext acc p
      exact foldl_fileStep o ignore p.files acc
    rw [hstep]

/-! ## Owner ordering (C1) -/

theorem userLe_iff (a b : ReportUserInfo) :
    userLe a b ↔
      (b.totals.linesAdded + b.totals.linesDeleted
          < a.totals.linesAdded + a.totals.linesDeleted
       ∨ (a.totals.linesAdded + a.totals.linesDeleted
            = b.totals.linesAdded + b.totals.linesDeleted
          ∧ (b.totals.prCount < a.totals.prCount
             ∨ (a.totals.prCount = b.totals.prCount
                ∧ strLt b.owner a.owner = false)))) := by
  simp only [userLe, userCmp]
  split_ifs with h1 h2
  · constructor
    · intro h
      left
      omega
    · intro h
      rcases h with h | ⟨he, _⟩ <;> omega
  · constructor
    · intro h
      exact Or.inr ⟨by omega, Or.inl (by omega)⟩
    · intro h
      rcases h with h | ⟨he, hp | ⟨hp, _⟩⟩ <;> omega
  · rw [strcmp_nonpos_iff]
    constructor
    · intro h
      exact Or.inr ⟨by omega, Or.inr ⟨by omega, h⟩⟩
    · rintro (h | ⟨he, hp | ⟨hp, hs⟩⟩)
      · omega
      · omega
      · exact hs

instance : IsTotal ReportUserInfo userLe := by
  constructor
  intro a b
  rw [userLe_iff, userLe_iff]
  rcases lt_trichotomy (a.totals.linesAdded + a.totals.linesDeleted)
      (b.totals.linesAdded + b.totals.linesDeleted) with hc | hc | hc
  · exact Or.inr (Or.inl hc)
  · rcases lt_trichotomy a.totals.prCount b.totals.prCount with hp | hp | hp
    · exact Or.inr (Or.inr ⟨hc.symm, Or.inl hp⟩)
    · cases hba : strLt b.owner a.owner
      · exact Or.inl (Or.inr ⟨hc, Or.inr ⟨hp, rfl⟩⟩)
      · exact Or.inr (Or.inr ⟨hc.symm, Or.inr ⟨hp.symm, strLt_asymm hba⟩⟩)
    · exact Or.inl (Or.inr ⟨hc, Or.inl hp⟩)
  · exact Or.inl (Or.inl hc)

instance : IsTrans ReportUserInfo userLe := by
  constructor
  intro a b c hab hbc
  rw [userLe_iff] at hab hbc ⊢
  rcases hab with h1 | ⟨e1, h1⟩
  · rcases hbc with h2 | ⟨e2, _⟩
    · left
      omega
    · left
      omega
  · rcases hbc with h2 | ⟨e2, h2⟩
    · left
      omega
    · right
      refine ⟨by omega, ?_⟩
      rcases h1 with hp1 | ⟨ep1, hs1⟩
      · rcases h2 with hp2 | ⟨ep2, _⟩
        · left
          omega
        · left
          omega
      · rcases h2 with hp2 | ⟨ep2, hs2⟩
        · left
          omega
        · right
          refine ⟨by omega, ?_⟩
          cases hca : strLt c.owner a.owner
          · rfl
          · exfalso
            cases hab2 : strLt a.owner b.owner
            · have heq : a.owner = b.owner := strLt_eq_of_not_lt hab2 hs1
              rw [heq] at hca
              simp [hca] at hs2
            · have hcb := strLt_trans hca hab2
              simp [hcb] at hs2

theorem foldUserStep_owner_distinct (o : FetchPullRequestsOptions)
    (ignore : String → Bool) (acc : List ReportUserInfo) (p : PullRequestWithDetails)
    (h : ownersDistinct acc) : ownersDistinct (foldUserStep o ignore acc p) := by
  unfold foldUserStep ownersDistinct
  cases han : acc.any (fun u => u.owner = p.summary.owner)
  · rw [if_neg (by simp)]
    rw [List.pairwise_append]
    refine ⟨h, by simp, ?_⟩
    intro u hu v hv
    simp only [List.mem_singleton] at hv
    subst hv
    have hno : ¬ u.owner = p.summary.owner := by
      intro hxe
      have hany : acc.any (fun x => x.owner = p.summary.owner) = true :=
        List.any_eq_true.mpr ⟨u, hu, by simpa using hxe⟩
      rw [han] at hany
      exact Bool.false_ne_true hany
    simpa [newUserInfo] using hno
  · rw [if_pos rfl]
    have howner : ∀ u : ReportUserInfo,
        ((if u.owner = p.summary.owner
            then updatedUserInfo u (prReportInfo o ignore p) else u)).owner = u.owner := by
      intro u
      by_cases hx : u.owner = p.summary.owner <;> simp [hx, updatedUserInfo]
    refine List.pairwise_map.mpr (h.imp ?_)
    intro u v huv
    simpa [howner u, howner v] using huv

theorem foldl_owner_distinct (o : FetchPullRequestsOptions) (ignore : String → Bool)
    (pulls : List PullRequestWithDetails) :
    ∀ acc, ownersDistinct acc → ownersDistinct (pulls.foldl (foldUserStep o ignore) acc) := by
  induction pulls with
  | nil => intro acc h; exact h
  | cons p rest ih =>
    intro acc h
    exact ih _ (foldUserStep_owner_distinct o ignore acc p h)

theorem buildUserReports_pairwise (o : FetchPullRequestsOptions) (ignore : String → Bool)
    (pulls : List PullRequestWithDetails) :
    (buildUserReports o pulls ignore).Pairwise userStrictOrdered := by
  unfold buildUserReports
  have hdist : ownersDistinct (pulls.foldl (foldUserStep o ignore) []) :=
    foldl_owner_distinct o ignore pulls [] (by simp [ownersDistinct])
  have hperm := List.perm_insertionSort userLe (pulls.foldl (foldUserStep o ignore) [])
  have hdist2 : ownersDistinct
      (List.insertionSort userLe (pulls.foldl (foldUserStep o ignore) [])) := by
    unfold ownersDistinct at hdist ⊢
    exact (List.Perm.pairwise_iff (fun hxy => hxy.symm) hperm).mpr hdist
  have hsorted : (List.insertionSort userLe
      (pulls.foldl (foldUserStep o ignore) [])).Pairwise userLe :=
    List.sorted_insertionSort userLe (pulls.foldl (foldUserStep o ignore) [])
  refine (List.Pairwise.and hsorted hdist2).imp ?_
  intro a b hab
  obtain ⟨hle, hne⟩ := hab
  rw [userLe_iff] at hle
  unfold userStrictOrdered
  rcases hle with h | ⟨he, h | ⟨hp, hs⟩⟩
  · exact Or.inl h
  · exact Or.inr ⟨he, Or.inl h⟩
  · refine Or.inr ⟨he, Or.inr ⟨hp, ?_⟩⟩
    cases hab2 : strLt a.owner b.owner
    · exact absurd (strLt_eq_of_not_lt hab2 hs) hne
    · rfl

/-- C1: the per-owner rows of the file-aware report are sorted by descending
total changes, tie-broken by descending PR count, then by ascending owner
login; in particular owners A (500 changes, 3 PRs), B (500 changes, 5 PRs),
C (300 changes, 1 PR) come out in the order B, A, C. -/
theorem c1_owner_ordering :
    (∀ (o : FetchPullRequestsOptions) (ignore : String → Bool)
       (pulls : List PullRequestWithDetails),
       (buildUserReports o pulls ignore).Pairwise userStrictOrdered)
  ∧ (buildUserReports oC1 pullsC1 (buildIgnoreMatcher (fun _ _ => false) [])).map
      (fun u => u.owner) = ["B", "A", "C"] := by
  constructor
  · intro o ignore pulls
    exact buildUserReports_pairwise o ignore pulls
  · decide

/-! ## Listing loop lemmas (C3, C9) -/

theorem collectLoop_append (q : RawPull → Option PullRequestSummary)
    (target : Option Int) (l1 : List RawPull) :
    ∀ (l2 : List RawPull) (acc : List PullRequestSummary),
      collectLoop q target (l1 ++ l2) acc
        = (if (collectLoop q target l1 acc).2 then collectLoop q target l1 acc
           else collectLoop q target l2 (collectLoop q target l1 acc).1) := by
  induction l1 with
  | nil =>
    intro l2 acc
    simp [collectLoop]
  | cons p rest ih =>
    intro l2 acc
    simp only [List.cons_append, collectLoop]
    cases hq : q p
    · exact ih l2 acc
    · case some s =>
      cases hh : hitTarget target (acc ++ [s]).length
      · simp only [hh, Bool.false_eq_true, if_false]
        exact ih l2 (acc ++ [s])
      · simp only [hh, if_true]

theorem collectPages_eq_flatten (q : RawPull → Option PullRequestSummary)
    (target : Option Int) (pages : List (List RawPull)) :
    ∀ acc, collectPages q target pages acc = (collectLoop q target pages.flatten acc).1 := by
  induction pages with
  | nil => intro acc; rfl
  | cons page rest ih =>
    intro acc
    simp only [collectPages, List.flatten_cons, collectLoop_append]
    by_cases hb : (collectLoop q target page acc).2 = true
    · simp [hb]
    · simp [hb, ih]

theorem collectLoop_none_fst (q : RawPull → Option PullRequestSummary)
    (l : List RawPull) :
    ∀ acc, (collectLoop q none l acc).1 = acc ++ l.filterMap q := by
  induction l with
  | nil =>
    intro acc
    simp [collectLoop]
  | cons p rest ih =>
    intro acc
    cases hq : q p
    · simp [collectLoop, hq, ih]
    · simp [collectLoop, hq, hitTarget, ih]

theorem collectLoop_some_fst (q : RawPull → Option PullRequestSummary)
    (t : Int) (ht : 0 < t) (l : List RawPull) :
    ∀ acc : List PullRequestSummary, acc.length < t.toNat →
      (collectLoop q (some t) l acc).1
        = acc ++ (l.filterMap q).take (t.toNat - acc.length) := by
  induction l with
  | nil =>
    intro acc hacc
    simp [collectLoop]
  | cons p rest ih =>
    intro acc hacc
    cases hq : q p
    · simp only [collectLoop, hq]
      rw [ih acc hacc, List.filterMap_cons_none hq]
    · case some s =>
      simp only [collectLoop, hq]
      cases hht : hitTarget (some t) (acc ++ [s]).length
      · have hcap : ¬ (t ≤ (((acc ++ [s]).length : Nat) : Int)) := by
          intro hc
          have habs : hitTarget (some t) (acc ++ [s]).length = true := by
            simp only [hitTarget, Bool.and_eq_true, decide_eq_true_eq]
            exact ⟨by omega, hc⟩
          rw [hht] at habs
          exact Bool.false_ne_true habs
        simp only [Bool.false_eq_true, if_false]
        have hlt : (acc ++ [s]).length < t.toNat := by
          simp only [List.length_append, List.length_cons, List.length_nil] at hcap ⊢
          omega
        have h1 : t.toNat - acc.length = (t.toNat - (acc ++ [s]).length) + 1 := by
          simp only [List.length_append, List.length_cons, List.length_nil] at hcap ⊢
          omega
        rw [ih (acc ++ [s]) hlt, List.filterMap_cons_some hq, h1, List.take_succ_cons]
        simp
      · simp only [if_true]
        have hcap : t ≤ (((acc ++ [s]).length : Nat) : Int) := by
          have hx := hht
          simp only [hitTarget, Bool.and_eq_true, decide_eq_true_eq] at hx
          exact hx.2
        have h1 : t.toNat - acc.length = 1 := by
          simp only [List.length_append, List.length_cons, List.length_nil] at hcap
          omega
        rw [List.filterMap_cons_some hq, h1, List.take_succ_cons, List.take_zero]

theorem targetAmount_pos {limit : Option Int} {t : Int}
    (h : targetAmount limit = some t) : 0 < t := by
  cases limit with
  | none => simp [targetAmount] at h
  | some l =>
    simp only [targetAmount] at h
    by_cases hl : 0 < l
    · rw [if_pos hl] at h
      have : l = t := by simpa using h
      omega
    · rw [if_neg hl] at h
      simp at h

theorem listNoCache_of_target_none (o : FetchPullRequestsOptions)
    (pages : List (List RawPull)) (h : targetAmount o.limit = none) :
    listMergedSummariesNoCache o pages = pages.flatten.filterMap (qualify o) := by
  unfold listMergedSummariesNoCache
  rw [collectPages_eq_flatten, h, collectLoop_none_fst]
  simp

theorem listNoCache_of_target_some (o : FetchPullRequestsOptions)
    (pages : List (List RawPull)) (t : Int) (h : targetAmount o.limit = some t) :
    listMergedSummariesNoCache o pages
      = (pages.flatten.filterMap (qualify o)).take t.toNat := by
  have ht := targetAmount_pos h
  unfold listMergedSummariesNoCache
  rw [collectPages_eq_flatten, h,
    collectLoop_some_fst (qualify o) t ht pages.flatten [] (by simp; omega)]
  simp

theorem filterMap_eq_filter_isSome (q : RawPull → Option PullRequestSummary)
    (l : List RawPull) :
    l.filterMap q = (l.filter (fun x => (q x).isSome)).filterMap q := by
  induction l with
  | nil => rfl
  | cons x rest ih =>
    cases hq : q x
    · simp [List.filterMap_cons_none hq, List.filter_cons, hq, ih]
    · simp [List.filterMap_cons_some hq, List.filter_cons, hq, ih]

theorem take_filterMap_of_allSome (q : RawPull → Option PullRequestSummary) :
    ∀ (m : List RawPull) (n : Nat), (∀ x ∈ m, (q x).isSome = true) →
      (m.filterMap q).take n = (m.take n).filterMap q := by
  intro m
  induction m with
  | nil => intro n _; simp
  | cons x rest ih =>
    intro n hall
    obtain ⟨s, hs⟩ := Option.isSome_iff_exists.mp (hall x (by simp))
    cases n with
    | zero => simp
    | succ k =>
      rw [List.filterMap_cons_some hs, List.take_succ_cons, List.take_succ_cons,
        List.filterMap_cons_some hs, ih k (fun y hy => hall y (by simp [hy]))]

theorem length_filterMap_of_allSome (q : RawPull → Option PullRequestSummary) :
    ∀ m : List RawPull, (∀ x ∈ m, (q x).isSome = true) →
      (m.filterMap q).length = m.length := by
  intro m
  induction m with
  | nil => intro _; rfl
  | cons x rest ih =>
    intro hall
    obtain ⟨s, hs⟩ := Option.isSome_iff_exists.mp (hall x (by simp))
    rw [List.filterMap_cons_some hs, List.length_cons, List.length_cons,
      ih (fun y hy => hall y (by simp [hy]))]

/-- C3: with a positive `limit` and at least `limit` qualifying merged PRs
in the stream, the listing returns exactly the first `limit` qualifying
pulls in stream order; when the stream is sorted by descending update time,
those are the most recently updated qualifying ones; and the result is
independent of how the stream is cut into pages. -/
theorem c3_limit_short_circuit (o : FetchPullRequestsOptions)
    (pages : List (List RawPull)) (l : Int) (hl : o.limit = some l) (hpos : 0 < l)
    (hcount : l.toNat
      ≤ (pages.flatten.filter (fun p => (qualify o p).isSome)).length) :
    listMergedSummariesNoCache o pages
      = ((pages.flatten.filter (fun p => (qualify o p).isSome)).take l.toNat).filterMap
          (qualify o)
  ∧ (listMergedSummariesNoCache o pages).length = l.toNat
  ∧ (pages.flatten.Pairwise (fun a b => b.updated_at ≤ a.updated_at) →
      ∀ x ∈ (pages.flatten.filter (fun p => (qualify o p).isSome)).take l.toNat,
      ∀ y ∈ (pages.flatten.filter (fun p => (qualify o p).isSome)).drop l.toNat,
        y.updated_at ≤ x.updated_at)
  ∧ (∀ pages2 : List (List RawPull), pages2.flatten = pages.flatten →
      listMergedSummariesNoCache o pages2 = listMergedSummariesNoCache o pages) := by
  have hta : targetAmount o.limit = some l := by
    rw [hl]
    simp only [targetAmount]
    rw [if_pos hpos]
  have hall : ∀ x ∈ pages.flatten.filter (fun p => (qualify o p).isSome),
      ((qualify o) x).isSome = true := by
    intro x hx
    simpa using (List.mem_filter.mp hx).2
  have h1 : listMergedSummariesNoCache o pages
      = ((pages.flatten.filter (fun p => (qualify o p).isSome)).take l.toNat).filterMap
          (qualify o) := by
    rw [listNoCache_of_target_some o pages l hta, filterMap_eq_filter_isSome,
      take_filterMap_of_allSome (qualify o) _ l.toNat hall]
  refine ⟨h1, ?_, ?_, ?_⟩
  · rw [h1, length_filterMap_of_allSome (qualify o) _
      (fun y hy => hall y (List.take_subset _ _ hy)), List.length_take]
    omega
  · intro hsorted x hx y hy
    have hq : (pages.flatten.filter (fun p => (qualify o p).isSome)).Pairwise
        (fun a b => b.updated_at ≤ a.updated_at) :=
      List.Pairwise.sublist (List.filter_sublist _) hsorted
    rw [← List.take_append_drop l.toNat
      (pages.flatten.filter (fun p => (qualify o p).isSome))] at hq
    exact (List.pairwise_append.mp hq).2.2 x hx y hy
  · intro pages2 h2
    unfold listMergedSummariesNoCache
    rw [collectPages_eq_flatten, collectPages_eq_flatten, h2]

theorem c3_limit_short_circuit_witness :
    (listMergedSummariesNoCache oC3 pagesC3).length = 1
  ∧ listMergedSummariesNoCache oC3 pagesC3
      = [{ number := 1, title := "t", url := "u", owner := "alice", mergedAt := 100 }]
  ∧ listMergedSummariesNoCache oC3 pagesC3b = listMergedSummariesNoCache oC3 pagesC3 := by
  obtain ⟨h1, h2, h3, h4⟩ :=
    c3_limit_short_circuit oC3 pagesC3 1 rfl (by decide) (by decide)
  exact ⟨h2, by decide, h4 pagesC3b (by decide)⟩

/-- C9: a `limit` of 0 or any non-positive number is no limit at all — the
listing collects every qualifying merged PR, exactly as with no limit
supplied. -/
theorem c9_nonpositive_limit (o : FetchPullRequestsOptions)
    (pages : List (List RawPull)) (l : Int) (hl : o.limit = some l) (hnp : l ≤ 0) :
    listMergedSummariesNoCache o pages = pages.flatten.filterMap (qualify o)
  ∧ listMergedSummariesNoCache o pages
      = listMergedSummariesNoCache { o with limit := none } pages := by
  have hta : targetAmount o.limit = none := by
    rw [hl]
    simp only [targetAmount]
    rw [if_neg (by omega)]
  have h1 := listNoCache_of_target_none o pages hta
  have h2 := listNoCache_of_target_none { o with limit := none } pages rfl
  refine ⟨h1, ?_⟩
  rw [h1, h2]
  rfl

theorem c9_nonpositive_limit_witness :
    listMergedSummariesNoCache oC9 pagesC3 = pagesC3.flatten.filterMap (qualify oC9)
  ∧ (listMergedSummariesNoCache oC9 pagesC3).length = 5 := by
  obtain ⟨h1, _⟩ := c9_nonpositive_limit oC9 pagesC3 0 rfl (by decide)
  exact ⟨h1, by decide⟩

/-! ## Range-cache freshness (C5) and corrupted range entries (C2) -/

theorem eligible_false_of_same_day (k now u : Int) (hn : onDay k now) (hu : onDay k u) :
    isUntilEligibleForCache now u = false := by
  unfold onDay at hn hu
  unfold isUntilEligibleForCache
  simp only [msPerDay] at hn hu ⊢
  simp only [decide_eq_false_iff_not, not_le]
  omega

theorem eligible_true_of_two_days_past (k now u : Int) (hn : onDay k now)
    (hu : onDay (k - 2) u) : isUntilEligibleForCache now u = true := by
  unfold onDay at hn hu
  unfold isUntilEligibleForCache
  simp only [msPerDay] at hn hu ⊢
  simp only [decide_eq_true_eq]
  omega

theorem part004_trace_only_when_eligible (now : Int) (o : FetchPullRequestsOptions)
    (pages : List (List RawPull)) (cache : Int × Int → RangeEntry)
    (h : (listMergedSummariesPart004 now o pages cache).1.rangeRead.isSome
       ∨ (listMergedSummariesPart004 now o pages cache).1.rangeWrite.isSome) :
    ∃ s u, o.since = some s ∧ o.until_ = some u
      ∧ isUntilEligibleForCache now u = true := by
  cases hs : o.since with
  | none => simp [listMergedSummariesPart004, hs] at h
  | some s =>
    cases hu : o.until_ with
    | none => simp [listMergedSummariesPart004, hs, hu] at h
    | some u =>
      cases he : isUntilEligibleForCache now u
      · exfalso
        simp [listMergedSummariesPart004, hs, hu, he] at h
      · exact ⟨s, u, rfl, rfl, he⟩

/-- C5: the range cache is consulted or written only when `since` and
`until` are both supplied and `until` is at or before yesterday end-of-day
relative to the wall clock; an `until` on the current day is never eligible
and produces no range-cache read or write, while an `until` two days in the
past is eligible. -/
theorem c5_range_cache_freshness :
    (∀ (now : Int) (o : FetchPullRequestsOptions) (pages : List (List RawPull))
       (cache : Int × Int → RangeEntry),
       ((listMergedSummariesPart004 now o pages cache).1.rangeRead.isSome
         ∨ (listMergedSummariesPart004 now o pages cache).1.rangeWrite.isSome) →
       ∃ s u, o.since = some s ∧ o.until_ = some u
         ∧ isUntilEligibleForCache now u = true)
  ∧ (∀ k now u : Int, onDay k now → onDay k u →
       isUntilEligibleForCache now u = false)
  ∧ (∀ k now u : Int, onDay k now → onDay (k - 2) u →
       isUntilEligibleForCache now u = true)
  ∧ (∀ (now : Int) (o : FetchPullRequestsOptions) (pages : List (List RawPull))
       (cache : Int × Int → RangeEntry) (k u : Int),
       o.until_ = some u → onDay k now → onDay k u →
       (listMergedSummariesPart004 now o pages cache).1
         = { rangeRead := none, rangeWrite := none }) := by
  refine ⟨part004_trace_only_when_eligible, eligible_false_of_same_day,
    eligible_true_of_two_days_past, ?_⟩
  intro now o pages cache k u hu hnow hud
  have he : isUntilEligibleForCache now u = false :=
    eligible_false_of_same_day k now u hnow hud
  cases hs : o.since with
  | none => simp [listMergedSummariesPart004, hs]
  | some s => simp [listMergedSummariesPart004, hs, hu, he]

theorem c5_range_cache_freshness_witness :
    isUntilEligibleForCache (10 * 86400000 + 5) (10 * 86400000 + 7) = false
  ∧ isUntilEligibleForCache (10 * 86400000 + 5) (8 * 86400000 + 3) = true
  ∧ (listMergedSummariesPart004 (10 * 86400000 + 5) oC5 []
      (fun _ => RangeEntry.absent)).1 = { rangeRead := none, rangeWrite := none } := by
  obtain ⟨_, h2, h3, h4⟩ := c5_range_cache_freshness
  exact ⟨h2 10 _ _ (by decide) (by decide),
    h3 10 _ _ (by decide) (by decide),
    h4 _ oC5 [] _ 10 _ rfl (by decide) (by decide)⟩

/-- C2 evidence: on an eligible (since, until) window whose range-cache
entry is unparsable JSON, the listing call aborts with the parse error —
`JSON.parse` throws inside `readCache`, outside the try/catch that was meant
to fall through — exactly as a corrupted per-PR detail or files entry
does. -/
theorem c2_range_parse_error_aborts :
    listMergedSummariesPart004 (10 * 86400000) oC2 [] cacheC2
      = ({ rangeRead := some (0, 8 * 86400000), rangeWrite := none },
         .error .parseFailure)
  ∧ getPullRequestWithCache .unparsable .obj = .error .parseFailure
  ∧ getPullRequestFilesWithCache .unparsable .obj = .error .parseFailure := by
  refine ⟨?_, rfl, rfl⟩
  rfl

/-! ## Per-PR cache truthiness (C10) -/

/-- C10: a per-PR detail or files cache entry that exists but parses to a
falsy JSON value (`null`, `0`, `false`, `""`) is treated as a miss — the
fetchers go to the network and overwrite the entry — while a truthy payload
is served verbatim with no fetch: the hit test is the truthiness of the
parsed payload, not its presence. -/
theorem c10_truthiness_hit_test :
    (∀ v network : JsVal, jsTruthy v = false →
       getPullRequestWithCache (.value v) network = .ok (network, true)
       ∧ getPullRequestFilesWithCache (.value v) network = .ok (network, true))
  ∧ (∀ v network : JsVal, jsTruthy v = true →
       getPullRequestWithCache (.value v) network = .ok (v, false)
       ∧ getPullRequestFilesWithCache (.value v) network = .ok (v, false))
  ∧ (jsTruthy .null = false ∧ jsTruthy (.num 0) = false
     ∧ jsTruthy (.bool false) = false ∧ jsTruthy (.str "") = false) := by
  refine ⟨?_, ?_, by decide⟩
  · intro v network hv
    constructor <;> simp [getPullRequestWithCache, getPullRequestFilesWithCache, hv]
  · intro v network hv
    constructor <;> simp [getPullRequestWithCache, getPullRequestFilesWithCache, hv]

theorem c10_truthiness_hit_test_witness :
    getPullRequestWithCache (.value .null) .obj = .ok (JsVal.obj, true)
  ∧ getPullRequestFilesWithCache (.value .null) .obj = .ok (JsVal.obj, true) :=
  c10_truthiness_hit_test.1 JsVal.null JsVal.obj rfl

/-! ## Concurrency sanitization (C8) -/

/-- C8 counterexample: the requested concurrency −5 is below 1, yet the
effective cap is 1, not the default 6 — negative values clamp instead of
falling back. -/
theorem c8_negative_clamps_to_one :
    sanitizeConcurrency (some (.num (-5))) = 1
  ∧ ¬ sanitizeConcurrency (some (.num (-5))) = 6 := by
  have ht : jsTrunc (-5) = -5 := by
    unfold jsTrunc
    rw [if_pos (by norm_num)]
    norm_num
  have h : sanitizeConcurrency (some (.num (-5))) = 1 := by
    show (if ((-5 : Rat)) = 0 then (6 : Int) else max 1 (min 25 (jsTrunc (-5)))) = 1
    rw [if_neg (by norm_num), ht]
    decide
  exact ⟨h, by rw [h]; decide⟩

/-- C8 (amended): the effective cap is 6 when the value is absent, `NaN` or
0; any other value is truncated toward zero and clamped into [1, 25] —
values above 25 give 25 and values below 1, including negatives, give 1
rather than the default; with no value supplied the default is 6. -/
theorem c8_concurrency_clamp :
    sanitizeConcurrency none = 6
  ∧ sanitizeConcurrency (some .nan) = 6
  ∧ sanitizeConcurrency (some (.num 0)) = 6
  ∧ (∀ q : Rat, q ≠ 0 →
       sanitizeConcurrency (some (.num q)) = max 1 (min 25 (jsTrunc q))
       ∧ 1 ≤ sanitizeConcurrency (some (.num q))
       ∧ sanitizeConcurrency (some (.num q)) ≤ 25)
  ∧ (∀ q : Rat, 25 < q → sanitizeConcurrency (some (.num q)) = 25)
  ∧ (∀ q : Rat, q < 1 → q ≠ 0 → sanitizeConcurrency (some (.num q)) = 1)
  ∧ (∀ o : FetchPullRequestsOptions, o.concurrentRequests = none →
       effectiveConcurrency o = 6) := by
  have hclamp : ∀ q : Rat, q ≠ 0 →
      sanitizeConcurrency (some (.num q)) = max 1 (min 25 (jsTrunc q)) := by
    intro q hq
    show (if q = 0 then (6 : Int) else max 1 (min 25 (jsTrunc q))) = _
    rw [if_neg hq]
  refine ⟨rfl, rfl, by norm_num [sanitizeConcurrency], ?_, ?_, ?_, ?_⟩
  · intro q hq
    refine ⟨hclamp q hq, ?_, ?_⟩ <;> rw [hclamp q hq] <;> omega
  · intro q hq
    have hq0 : q ≠ 0 := by
      intro h0
      rw [h0] at hq
      norm_num at hq
    have hfloor : (25 : Int) ≤ ⌊q⌋ := Int.le_floor.mpr (by exact_mod_cast hq.le)
    have hneg : ¬ (q < 0) := by linarith
    have ht : jsTrunc q = ⌊q⌋ := by
      unfold jsTrunc
      rw [if_neg hneg]
    rw [hclamp q hq0, ht]
    omega
  · intro q hq1 hq0
    have ht : jsTrunc q ≤ 0 := by
      unfold jsTrunc
      split_ifs with h
      · have h2 : (0 : Int) ≤ ⌊-q⌋ := Int.floor_nonneg.mpr (by linarith)
        omega
      · have h0 : (0 : ℚ) ≤ q := not_lt.mp h
        have h2 : ⌊q⌋ = 0 := Int.floor_eq_zero_iff.mpr (Set.mem_Ico.mpr ⟨h0, hq1⟩)
        omega
    rw [hclamp q hq0]
    omega
  · intro o h
    unfold effectiveConcurrency
    rw [h]
    have h6 : jsTrunc 6 = 6 := by
      unfold jsTrunc
      rw [if_neg (by norm_num)]
      norm_num
    show (if (6 : Rat) = 0 then (6 : Int) else max 1 (min 25 (jsTrunc 6))) = 6
    rw [if_neg (by norm_num), h6]
    decide

theorem c8_concurrency_clamp_witness :
    sanitizeConcurrency (some (.num 30)) = 25
  ∧ sanitizeConcurrency (some (.num (1 / 2))) = 1
  ∧ sanitizeConcurrency none = 6
  ∧ effectiveConcurrency oC8 = 6 := by
  obtain ⟨h1, _, _, _, h5, h6, h7⟩ := c8_concurrency_clamp
  exact ⟨h5 30 (by norm_num), h6 (1 / 2) (by norm_num) (by norm_num), h1, h7 oC8 rfl⟩

end GitHubRepoStats
